import Mathlib

/-!
Shallow embedding of `smartie.py`, a Python driver for SureElectronics
Smartie LCDs, together with theorems about its command framing and text
layout.

Modelling conventions:

* A Python `str` is a list of Unicode code points (`Text := List Nat`).
* A protocol frame is the byte string written to the serial transport in
  one `self.lcd.write(...)` call (`Frame := List Nat`, each entry < 256).
* Each `Smartie` method is embedded as a function returning the list of
  frames it writes to the transport, in order.  `time.sleep` calls are
  not part of the byte trace and are omitted.
* `unicodedata.normalize('NFKD', ·)` is an external library call; it is
  modelled as an arbitrary parameter `nfkd : Text → Text`, universally
  quantified in the theorems (instantiated with `id` in witnesses, which
  agrees with real NFKD on ASCII input).
-/

set_option autoImplicit false

namespace Smartie

/-- A Python string, as its list of Unicode code points. -/
abbrev Text := List Nat

/-- One protocol frame: the bytes of a single `lcd.write` call. -/
abbrev Frame := List Nat

/-- `SCREEN_WIDTH = 20` (module constant, smartie.py line 12). -/
def SCREEN_WIDTH : Nat := 20

/-- `SCREEN_LINES = 4` (module constant, smartie.py line 13). -/
def SCREEN_LINES : Nat := 4

/-- The bytes of Python `chr(n).encode()`: the UTF-8 encoding of code
point `n` (valid for non-surrogate `n ≤ 0x10FFFF`, which covers every
use in the source: coerced line numbers in `[1,4]` and contrast values). -/
def utf8Encode (n : Nat) : List Nat :=
  if n < 0x80 then [n]
  else if n < 0x800 then [0xC0 + n / 64, 0x80 + n % 64]
  else if n < 0x10000 then
    [0xE0 + n / 4096, 0x80 + n / 64 % 64, 0x80 + n % 64]
  else
    [0xF0 + n / 262144, 0x80 + n / 4096 % 64, 0x80 + n / 64 % 64, 0x80 + n % 64]

/-- `Smartie.command` (lines 25-29): join the lead byte `0xFE` with the
command bytes and write the result as one frame. -/
def command (cmd : List Nat) : Frame := 0xFE :: cmd

/-- `Smartie.set_contrast` (lines 58-60):
`self.command([b'\x50', chr(amount).encode()])`.  Returns the frames
written (exactly one; no validation is performed by the source). -/
def set_contrast (amount : Nat) : List Frame :=
  [command ([0x50] ++ utf8Encode amount)]

/-- The line-coercion test of `Smartie.write_line` (line 83):
`if line is None or line < 1 or line > 4: line = 1`. -/
def coerceLine : Option Int → Int
  | none => 1
  | some l => if l < 1 ∨ 4 < l then 1 else l

/-- The text-layout pipeline of `Smartie.write_line` (lines 86-88), the
spec's `TextLayout.toField`:
`data = unicodedata.normalize('NFKD', data)`;
`data = data.encode('ascii', 'ignore')` (keep code points < 128, drop the
rest); `data = data.ljust(20)[:20]` (pad with spaces, truncate to 20). -/
def toField (nfkd : Text → Text) (data : Text) : List Nat :=
  let enc := (nfkd data).filter (fun c => decide (c < 128))
  (enc ++ List.replicate (SCREEN_WIDTH - enc.length) 0x20).take SCREEN_WIDTH

/-- The single frame emitted by `Smartie.write_line` (line 90):
`self.command([b'\x47', b'\x01', chr(line).encode(), data])`. -/
def write_line_frame (nfkd : Text → Text) (data : Text) (line : Option Int) : Frame :=
  command ([0x47, 0x01] ++ utf8Encode (coerceLine line).toNat ++ toField nfkd data)

/-- `Smartie.write_line` (lines 81-90): coerce the line, lay out the
text, emit one frame. -/
def write_line (nfkd : Text → Text) (data : Text) (line : Option Int) : List Frame :=
  [write_line_frame nfkd data line]

/-- `Smartie.clear_screen` (lines 73-76):
`for line in range(1, SCREEN_LINES+1): self.write_line(" ", line)`. -/
def clear_screen (nfkd : Text → Text) : List Frame :=
  (List.range SCREEN_LINES).flatMap
    (fun k => write_line nfkd [0x20] (some ((k : Int) + 1)))

/-- `Smartie.write_line_flash` (lines 111-120): `count` iterations of
(write text, write ""), then a final write of the text. -/
def write_line_flash (nfkd : Text → Text) (text : Text) (line : Option Int)
    (count : Nat) : List Frame :=
  (List.range count).flatMap
    (fun _ => write_line nfkd text line ++ write_line nfkd [] line)
  ++ write_line nfkd text line

/-- `Smartie.write_data_wrapped` (lines 126-134): truncate to the first
79 characters, then `for i in range(0, len(data), 20)` write
`data[i:i+20]` to row `i/20 + 1`.  The Python loop visits
`i = 20*k` for `k < ceil(len(data)/20)`, with `row = k + 1`. -/
def write_data_wrapped (nfkd : Text → Text) (text : Text) : List Frame :=
  let data := text.take 79
  (List.range ((data.length + 19) / 20)).flatMap
    (fun k => write_line nfkd ((data.drop (20 * k)).take 20) (some ((k : Int) + 1)))

/-- `Smartie.write_lines` (lines 139-147): truncate the list to
`SCREEN_LINES` entries and write entry `j` (0-based) to line `j+1`. -/
def write_lines (nfkd : Text → Text) (textlines : List Text) : List Frame :=
  (textlines.take SCREEN_LINES).enum.flatMap
    (fun p => write_line nfkd p.2 (some ((p.1 : Int) + 1)))

/-- The scroll windows visited by the loop of `Smartie.write_lines_scroll`
(lines 161-168): `while startitem < numberoflines - (SCREEN_LINES-1)`,
display `textlines[startitem : startitem+SCREEN_LINES]`, advance by 1.
The while loop over the counter `startitem = 0, 1, ...` is rendered as a
map over `List.range` of its bound. -/
def scrollWindows (textlines : List Text) : List (List Text) :=
  (List.range (textlines.length - (SCREEN_LINES - 1))).map
    (fun startitem => (textlines.drop startitem).take SCREEN_LINES)

/-- `Smartie.write_lines_scroll` (lines 153-168): fewer than
`SCREEN_LINES+1` entries behaves as `write_lines`; otherwise each scroll
window is rendered through `write_lines` in order. -/
def write_lines_scroll (nfkd : Text → Text) (textlines : List Text) : List Frame :=
  if textlines.length < SCREEN_LINES + 1 then write_lines nfkd textlines
  else (scrollWindows textlines).flatMap (write_lines nfkd)

/-- The consecutive 20-character slices of a string, 1-indexed rows in
order; used to state C9 about `write_data_wrapped`. -/
def chunks20 : List Nat → List (List Nat)
  | [] => []
  | x :: xs => ((x :: xs).take 20) :: chunks20 ((x :: xs).drop 20)
termination_by l => l.length
decreasing_by simp; omega

/-! ### Helper lemmas -/

lemma utf8Encode_of_lt (n : Nat) (h : n < 128) : utf8Encode n = [n] := by
  simp [utf8Encode, h]

lemma coerceLine_of_mem (L : Int) (h1 : 1 ≤ L) (h2 : L ≤ 4) :
    coerceLine (some L) = L := by
  simp only [coerceLine]
  rw [if_neg]
  omega

lemma coerceLine_mem (line : Option Int) :
    1 ≤ coerceLine line ∧ coerceLine line ≤ 4 := by
  cases line with
  | none => exact ⟨by decide, by decide⟩
  | some l =>
      simp only [coerceLine]
      split
      · exact ⟨le_refl 1, by norm_num⟩
      · omega

lemma toField_length (nfkd : Text → Text) (data : Text) :
    (toField nfkd data).length = SCREEN_WIDTH := by
  simp only [toField, List.length_take, List.length_append, List.length_replicate]
  omega

lemma write_line_frame_shape (nfkd : Text → Text) (data : Text) (line : Option Int) :
    write_line_frame nfkd data line =
      0xFE :: 0x47 :: 0x01 :: (coerceLine line).toNat :: toField nfkd data := by
  have h := coerceLine_mem line
  rw [write_line_frame, utf8Encode_of_lt _ (by omega)]
  rfl

lemma flatten_replicate_append {α : Type} (n : Nat) (x : List α) :
    (List.replicate n x).flatten ++ x = x ++ (List.replicate n x).flatten := by
  induction n with
  | zero => simp
  | succ n ih =>
      simp only [List.replicate_succ, List.flatten_cons, List.append_assoc]
      rw [ih]

lemma range_flatMap_const {α : Type} (c : Nat) (x : List α) :
    (List.range c).flatMap (fun _ => x) = (List.replicate c x).flatten := by
  induction c with
  | zero => rfl
  | succ n ih =>
      rw [List.range_succ, List.flatMap_append, ih]
      simp only [List.flatMap_cons, List.flatMap_nil, List.append_nil,
        List.replicate_succ, List.flatten_cons]
      exact flatten_replicate_append n x

lemma flatten_replicate_length {α : Type} (c : Nat) (x : List α) :
    ((List.replicate c x).flatten).length = c * x.length := by
  induction c with
  | zero => simp
  | succ n ih =>
      simp only [List.replicate_succ, List.flatten_cons, List.length_append, ih]
      ring

lemma flatMap_singleton_eq_map {α β : Type} (l : List α) (f : α → β) :
    l.flatMap (fun a => [f a]) = l.map f := by
  induction l with
  | nil => rfl
  | cons x xs ih => simp [List.flatMap_cons, ih]

lemma enum_map_range {α : Type} (m : Nat) (f : Nat → α) :
    ((List.range m).map f).enum = (List.range m).map (fun k => (k, f k)) := by
  rw [List.enum_eq_zip_range, List.length_map, List.length_range]
  rw [show (List.range m).zip ((List.range m).map f)
      = ((List.range m).map id).zip ((List.range m).map f) by rw [List.map_id]]
  rw [List.zip_map']
  simp

lemma chunks20_eq_range (l : List Nat) :
    chunks20 l =
      (List.range ((l.length + 19) / 20)).map
        (fun k => (l.drop (20 * k)).take 20) := by
  induction l using chunks20.induct with
  | case1 => simp [chunks20]
  | case2 x xs ih =>
      rw [chunks20, ih]
      have hm : ((x :: xs).length + 19) / 20 =
          (((x :: xs).drop 20).length + 19) / 20 + 1 := by
        simp only [List.length_drop, List.length_cons]
        omega
      rw [hm, List.range_succ_eq_map, List.map_cons, List.map_map]
      congr 1
      simp
      intro a ha
      congr 1
      rw [show 20 * (a + 1) = 19 + 20 * a + 1 by ring]
      rw [List.drop_succ_cons]

/-! ### Claims -/

/-- C2 (refuting the claimed error): `set_contrast 256` raises nothing
and emits exactly one frame, `FE 50 C4 80` — `chr(256).encode()` UTF-8
encodes code point 256 as the two bytes `C4 80` — rather than failing
with an InvalidArgument error and emitting no frame. -/
theorem c2_set_contrast_256_emits :
    set_contrast 256 = [[0xFE, 0x50, 0xC4, 0x80]] ∧
    (set_contrast 256).length = 1 := by
  constructor
  · decide
  · decide

/-- C5: for every text the layout pipeline yields a field of exactly
`SCREEN_WIDTH` = 20 bytes; and input whose normal form contains no
character representable in the 7-bit charset (in particular, empty
input) yields the all-space field. -/
theorem c5_toField_layout (nfkd : Text → Text) (text : Text) :
    (toField nfkd text).length = SCREEN_WIDTH ∧
    ((∀ c ∈ nfkd text, 128 ≤ c) →
      toField nfkd text = List.replicate SCREEN_WIDTH 0x20) := by
  refine ⟨toField_length nfkd text, fun h => ?_⟩
  have hnil : (nfkd text).filter (fun c => decide (c < 128)) = [] := by
    rw [List.filter_eq_nil_iff]
    intro a ha
    have := h a ha
    simp only [decide_eq_true_eq, not_lt]
    omega
  simp only [toField, hnil]
  decide

/-- C5 witness: the empty string lays out to twenty spaces, and the
field length is 20. -/
theorem c5_toField_layout_witness :
    (toField id ([] : Text)).length = SCREEN_WIDTH ∧
    toField id ([] : Text) = List.replicate SCREEN_WIDTH 0x20 :=
  ⟨(c5_toField_layout id []).1,
   (c5_toField_layout id []).2 (by intro c hc; cases hc)⟩

/-- C6: an out-of-range line index, or a missing one, is coerced to
line 1: `write_line` emits the very same frame as for line 1. -/
theorem c6_write_line_coerce (nfkd : Text → Text) (text : Text) (L : Int)
    (h : L < 1 ∨ 4 < L) :
    write_line nfkd text (some L) = write_line nfkd text (some 1) ∧
    write_line nfkd text none = write_line nfkd text (some 1) := by
  have e1 : coerceLine (some L) = 1 := by
    simp only [coerceLine]
    rw [if_pos h]
  have e2 : coerceLine (some 1) = 1 := coerceLine_of_mem 1 le_rfl (by norm_num)
  have e0 : coerceLine none = 1 := rfl
  constructor
  · simp only [write_line, write_line_frame, e1, e2]
  · simp only [write_line, write_line_frame, e0, e2]

/-- C6 witness: line 7 is out of range and coerces to line 1. -/
theorem c6_write_line_coerce_witness :
    write_line id [72] (some 7) = write_line id [72] (some 1) ∧
    write_line id [72] none = write_line id [72] (some 1) :=
  c6_write_line_coerce id [72] 7 (by decide)

/-- C8: for a valid line in [1,4], the writeLine frame is byte-exactly
`FE 47 01 <line>` followed by the 20 field bytes, and every frame built
by `command` — hence every emitted frame — begins with the lead byte
`0xFE`. -/
theorem c8_frame_bytes (nfkd : Text → Text) (text : Text) (L : Int)
    (h1 : 1 ≤ L) (h2 : L ≤ 4) :
    write_line nfkd text (some L) =
      [0xFE :: 0x47 :: 0x01 :: L.toNat :: toField nfkd text] ∧
    (toField nfkd text).length = 20 ∧
    (∀ cmd : List Nat, (command cmd).head? = some 0xFE) := by
  refine ⟨?_, toField_length nfkd text, fun cmd => rfl⟩
  rw [write_line, write_line_frame_shape, coerceLine_of_mem L h1 h2]

/-- C8 witness: the frame for "Hi" on line 3. -/
theorem c8_frame_bytes_witness :
    write_line id [72, 105] (some 3) =
      [0xFE :: 0x47 :: 0x01 :: (3 : Int).toNat :: toField id [72, 105]] :=
  (c8_frame_bytes id [72, 105] 3 (by decide) (by decide)).1

/-- C7: `clear_screen` emits exactly `SCREEN_LINES` = 4 writeLine
frames, addressed to lines 1, 2, 3, 4 in that order, each carrying the
all-space 20-byte field.  (NFKD fixes the one-space string, which the
hypothesis records.) -/
theorem c7_clear_screen (nfkd : Text → Text) (hs : nfkd [0x20] = [0x20]) :
    clear_screen nfkd =
      [0xFE :: 0x47 :: 0x01 :: 1 :: List.replicate 20 0x20,
       0xFE :: 0x47 :: 0x01 :: 2 :: List.replicate 20 0x20,
       0xFE :: 0x47 :: 0x01 :: 3 :: List.replicate 20 0x20,
       0xFE :: 0x47 :: 0x01 :: 4 :: List.replicate 20 0x20] := by
  have hf : toField nfkd [0x20] = List.replicate 20 0x20 := by
    simp only [toField, hs]
    decide
  have hw : ∀ k : Nat, k < 4 →
      write_line nfkd [0x20] (some ((k : Int) + 1)) =
        [0xFE :: 0x47 :: 0x01 :: (k + 1) :: List.replicate 20 0x20] := by
    intro k hk
    rw [write_line, write_line_frame_shape,
      coerceLine_of_mem _ (by omega) (by omega), hf]
    congr 2
  have hr : List.range SCREEN_LINES = [0, 1, 2, 3] := rfl
  rw [clear_screen, hr]
  simp only [List.flatMap_cons, List.flatMap_nil, List.append_nil]
  rw [hw 0 (by omega), hw 1 (by omega), hw 2 (by omega), hw 3 (by omega)]
  simp

/-- C7 witness: the four concrete clear-screen frames. -/
theorem c7_clear_screen_witness :
    clear_screen id =
      [0xFE :: 0x47 :: 0x01 :: 1 :: List.replicate 20 0x20,
       0xFE :: 0x47 :: 0x01 :: 2 :: List.replicate 20 0x20,
       0xFE :: 0x47 :: 0x01 :: 3 :: List.replicate 20 0x20,
       0xFE :: 0x47 :: 0x01 :: 4 :: List.replicate 20 0x20] :=
  c7_clear_screen id rfl

/-- C1 counterexample: on a 5-line list, `write_lines_scroll` displays
2 windows (`len - (SCREEN_LINES-1)` many), not
`len - SCREEN_LINES + 2 = 3` as the claim's count formula states. -/
theorem c1_window_count_counterexample :
    ¬ ((scrollWindows [[97], [98], [99], [100], [101]]).length =
        ([[97], [98], [99], [100], [101]] : List Text).length - SCREEN_LINES + 2) := by
  decide

/-- C1 (amended): for `len(lines) ≥ SCREEN_LINES+1`, the windows
displayed are `lines[off : off+4]` for each offset `off` from 0 up to
`len - (SCREEN_LINES-1) - 1` inclusive, rendered through `write_lines`
in that order, and the window count is `len - SCREEN_LINES + 1`. -/
theorem c1_scroll_windows (nfkd : Text → Text) (textlines : List Text)
    (h : SCREEN_LINES + 1 ≤ textlines.length) :
    (scrollWindows textlines).length = textlines.length - SCREEN_LINES + 1 ∧
    (∀ off, off < textlines.length - (SCREEN_LINES - 1) →
      (scrollWindows textlines)[off]? =
        some ((textlines.drop off).take SCREEN_LINES)) ∧
    write_lines_scroll nfkd textlines =
      (scrollWindows textlines).flatMap (write_lines nfkd) := by
  refine ⟨?_, ?_, ?_⟩
  · simp only [scrollWindows, List.length_map, List.length_range, SCREEN_LINES]
    simp only [SCREEN_LINES] at h
    omega
  · intro off hoff
    simp only [scrollWindows, List.getElem?_map, List.getElem?_range, hoff]
    rfl
  · rw [write_lines_scroll, if_neg (by omega)]

/-- C1 witness: the 5-line list scrolls as 2 = 5 - SCREEN_LINES + 1
windows. -/
theorem c1_scroll_windows_witness :
    (scrollWindows [[97], [98], [99], [100], [101]]).length =
      ([[97], [98], [99], [100], [101]] : List Text).length - SCREEN_LINES + 1 :=
  (c1_scroll_windows id [[97], [98], [99], [100], [101]] (by decide)).1

/-- C3: `write_line_flash` emits exactly `2*count + 1` frames — `count`
copies of (text frame, blank frame), then a final text frame — all
addressed to the same coerced line (byte 3 of every frame), the blank
frame carrying the all-space field (NFKD fixes the empty string, which
the hypothesis records), and the last emitted frame carrying the text
field. -/
theorem c3_write_line_flash (nfkd : Text → Text) (text : Text)
    (line : Option Int) (count : Nat) (hn : nfkd [] = []) :
    write_line_flash nfkd text line count =
      (List.replicate count
        [write_line_frame nfkd text line, write_line_frame nfkd [] line]).flatten
      ++ [write_line_frame nfkd text line] ∧
    (write_line_flash nfkd text line count).length = 2 * count + 1 ∧
    (∀ f ∈ write_line_flash nfkd text line count,
      f[3]? = some (coerceLine line).toNat) ∧
    write_line_frame nfkd [] line =
      0xFE :: 0x47 :: 0x01 :: (coerceLine line).toNat ::
        List.replicate SCREEN_WIDTH 0x20 ∧
    (write_line_flash nfkd text line count).getLast? =
      some (write_line_frame nfkd text line) := by
  have hpat : write_line_flash nfkd text line count =
      (List.replicate count
        [write_line_frame nfkd text line, write_line_frame nfkd [] line]).flatten
      ++ [write_line_frame nfkd text line] := by
    rw [write_line_flash]
    simp only [write_line]
    rw [show (fun (_ : Nat) =>
        ([write_line_frame nfkd text line] ++ [write_line_frame nfkd [] line])) =
      (fun (_ : Nat) =>
        [write_line_frame nfkd text line, write_line_frame nfkd [] line]) from rfl]
    rw [range_flatMap_const]
  have hblank : write_line_frame nfkd [] line =
      0xFE :: 0x47 :: 0x01 :: (coerceLine line).toNat ::
        List.replicate SCREEN_WIDTH 0x20 := by
    rw [write_line_frame_shape]
    have : toField nfkd [] = List.replicate SCREEN_WIDTH 0x20 := by
      simp only [toField, hn]
      decide
    rw [this]
  refine ⟨hpat, ?_, ?_, hblank, ?_⟩
  · rw [hpat, List.length_append, flatten_replicate_length]
    simp only [List.length_cons, List.length_nil, List.length_singleton]
    omega
  · intro f hf
    rw [hpat] at hf
    have hfa : f = write_line_frame nfkd text line ∨
        f = write_line_frame nfkd [] line := by
      rcases List.mem_append.mp hf with hm | hm
      · rcases List.mem_flatten.mp hm with ⟨s, hs, hfs⟩
        have := List.eq_of_mem_replicate hs
        subst this
        simpa using hfs
      · left
        simpa using hm
    rcases hfa with rfl | rfl
    · rw [write_line_frame_shape]
      simp
    · rw [write_line_frame_shape]
      simp
  · rw [hpat, List.getLast?_append]
    rfl

/-- C3 witness: flashing "X" on line 2 twice emits 2*2+1 = 5 frames. -/
theorem c3_write_line_flash_witness :
    (write_line_flash id [88] (some 2) 2).length = 2 * 2 + 1 :=
  (c3_write_line_flash id [88] (some 2) 2 rfl).2.1

/-- C4: scrolling the 5-line list a,b,c,d,e produces exactly the two
windows [a,b,c,d] then [b,c,d,e], each rendered through `write_lines`
as 4 writeLine frames; and a list of fewer than SCREEN_LINES+1 entries
makes `write_lines_scroll` emit exactly the frames of `write_lines`. -/
theorem c4_scroll_example (nfkd : Text → Text) (l : List Text)
    (h : l.length < SCREEN_LINES + 1) :
    write_lines_scroll nfkd l = write_lines nfkd l ∧
    scrollWindows [[97], [98], [99], [100], [101]] =
      [[[97], [98], [99], [100]], [[98], [99], [100], [101]]] ∧
    write_lines_scroll nfkd [[97], [98], [99], [100], [101]] =
      write_lines nfkd [[97], [98], [99], [100]] ++
      write_lines nfkd [[98], [99], [100], [101]] ∧
    (write_lines nfkd [[97], [98], [99], [100]]).length = 4 ∧
    (write_lines nfkd [[98], [99], [100], [101]]).length = 4 := by
  have hwin : scrollWindows [[97], [98], [99], [100], [101]] =
      [[[97], [98], [99], [100]], [[98], [99], [100], [101]]] := by
    decide
  refine ⟨?_, hwin, ?_, rfl, rfl⟩
  · rw [write_lines_scroll, if_pos h]
  · rw [write_lines_scroll, if_neg (by decide), hwin]
    simp [List.flatMap_cons, List.flatMap_nil]

/-- C4 witness: the empty list (0 < 5 entries) scrolls exactly as
`write_lines`. -/
theorem c4_scroll_example_witness :
    write_lines_scroll id [] = write_lines id [] :=
  (c4_scroll_example id [] (by decide)).1

/-- C9: `write_data_wrapped` uses at most the first 79 characters of
its input, and writes the consecutive 20-character slices of that
truncation to consecutive lines starting at line 1, one line per chunk,
in input order. -/
theorem c9_write_data_wrapped (nfkd : Text → Text) (text : Text) :
    write_data_wrapped nfkd text = write_data_wrapped nfkd (text.take 79) ∧
    write_data_wrapped nfkd text =
      (chunks20 (text.take 79)).enum.flatMap
        (fun p => write_line nfkd p.2 (some ((p.1 : Int) + 1))) := by
  constructor
  · simp [write_data_wrapped, List.take_take]
  · rw [write_data_wrapped, chunks20_eq_range, enum_map_range]
    rw [List.flatMap_map]

/-- C10 (implicit): truncation to 79 characters yields at most 4
twenty-character chunks, so `write_data_wrapped` emits at most
`SCREEN_LINES` = 4 frames and the line byte (byte 3) of every emitted
frame lies in [1,4] — the unguarded row advance never actually targets
a line beyond `SCREEN_LINES`. -/
theorem c10_wrapped_line_bounds (nfkd : Text → Text) (text : Text) :
    (write_data_wrapped nfkd text).length ≤ SCREEN_LINES ∧
    ∀ f ∈ write_data_wrapped nfkd text,
      ∃ b, f[3]? = some b ∧ 1 ≤ b ∧ b ≤ 4 := by
  have hlen : (text.take 79).length ≤ 79 := by
    simp only [List.length_take]
    omega
  have hmap : write_data_wrapped nfkd text =
      (List.range (((text.take 79).length + 19) / 20)).map
        (fun k => write_line_frame nfkd (((text.take 79).drop (20 * k)).take 20)
          (some ((k : Int) + 1))) := by
    rw [write_data_wrapped]
    simp only [write_line]
    rw [flatMap_singleton_eq_map]
  constructor
  · rw [hmap, List.length_map, List.length_range, SCREEN_LINES]
    omega
  · intro f hf
    rw [hmap] at hf
    rcases List.mem_map.mp hf with ⟨k, hk, rfl⟩
    rw [List.mem_range] at hk
    have hk4 : k < 4 := by omega
    refine ⟨k + 1, ?_, by omega, by omega⟩
    rw [write_line_frame_shape, coerceLine_of_mem _ (by omega) (by omega)]
    simp only [List.getElem?_cons_succ, List.getElem?_cons_zero]
    congr 1

end Smartie
